import Mathlib

/-!
Verification of the `proj` daemon (crates `proj-common` and `proj-daemon`)
against its natural-language specification.

The Rust sources are shallowly embedded: the shared hash maps
(`Registry.projects`, `ProcessManager.processes`, the `RoutingTable`) are
modelled as association lists carrying the entries in iteration order,
operations that perform I/O take the outcome of that I/O as an explicit
parameter, and the event handler / IPC dispatcher become pure state
transformers.  Machine integers (`u16` ports, `u32` pids, `i32` exit codes)
are modelled as `Nat`/`Int`; timestamps (`DateTime<Utc>`) and UUIDs are
modelled as `Nat` (only their equality and ordering are used by the code).
-/

namespace Proj

/-! ### Association-list model of `std::collections::HashMap`

Entries are kept in a list, in iteration order.  `alInsert` overwrites the
value stored at an existing key (like `HashMap::insert`), `alRemove` deletes
a key, `alUpdate` applies a function to the value at a key (the model of
`get_mut` followed by a field assignment).  All daemon maps start empty, so
keys stay pairwise distinct. -/

def alLookup {K V : Type} [DecidableEq K] (k : K) : List (K × V) → Option V
  | [] => none
  | e :: rest => if e.1 = k then some e.2 else alLookup k rest

def alContainsKey {K V : Type} [DecidableEq K] (k : K) (l : List (K × V)) : Bool :=
  (alLookup k l).isSome

def alInsert {K V : Type} [DecidableEq K] (k : K) (v : V) (l : List (K × V)) :
    List (K × V) :=
  if alContainsKey k l then l.map (fun e => if e.1 = k then (e.1, v) else e)
  else l ++ [(k, v)]

def alRemove {K V : Type} [DecidableEq K] (k : K) (l : List (K × V)) : List (K × V) :=
  l.filter (fun e => decide (e.1 ≠ k))

def alUpdate {K V : Type} [DecidableEq K] (k : K) (f : V → V) (l : List (K × V)) :
    List (K × V) :=
  l.map (fun e => if e.1 = k then (e.1, f e.2) else e)

def alNodupKeys {K V : Type} (l : List (K × V)) : Prop :=
  (l.map (·.1)).Nodup

/-! ### Data model (`proj-common/src/lib.rs`) -/

inductive ProcessStatus where
  | Running
  | Stopped
  | Failed
deriving DecidableEq, Repr

/-- Embedding of `proj_common::ProcessInfo`.  The `Uuid` process id and the
`DateTime<Utc>` start timestamp are modelled as `Nat`. -/
structure ProcessInfo where
  id : Nat
  project_name : String
  pid : Nat
  command : String
  started_at : Nat
  port : Option Nat
  status : ProcessStatus
deriving DecidableEq, Repr

/-- Embedding of `proj_common::Project` (registry entry). -/
structure Project where
  name : String
  id : Nat
  created_at : Nat
  root_dir : String
  port : Option Nat
deriving DecidableEq, Repr

/-! ### Project-name validation (`proj-common/src/lib.rs`, `validate_project_name`) -/

/-- Model of Rust `char::is_alphanumeric` (Unicode `Alphabetic` or general
category `Nd`/`Nl`/`No`).  The model is exact on the Basic Latin and Latin-1
Supplement blocks (U+0000..U+00FF), the only code points at which this
development evaluates it; higher code points are outside the modelled domain
and are mapped to `false`. -/
def rustIsAlphanumeric (c : Char) : Bool :=
  let n := c.toNat
  (0x30 ≤ n ∧ n ≤ 0x39) ∨ (0x41 ≤ n ∧ n ≤ 0x5A) ∨ (0x61 ≤ n ∧ n ≤ 0x7A) ∨
  n = 0xAA ∨ n = 0xB5 ∨ n = 0xBA ∨
  n = 0xB2 ∨ n = 0xB3 ∨ n = 0xB9 ∨ n = 0xBC ∨ n = 0xBD ∨ n = 0xBE ∨
  (0xC0 ≤ n ∧ n ≤ 0xD6) ∨ (0xD8 ≤ n ∧ n ≤ 0xF6) ∨ (0xF8 ≤ n ∧ n ≤ 0xFF)

/-- Model of Rust `char::len_utf8`: the number of UTF-8 bytes encoding the
character. -/
def rustCharLen (c : Char) : Nat :=
  if c.toNat ≤ 0x7F then 1
  else if c.toNat ≤ 0x7FF then 2
  else if c.toNat ≤ 0xFFFF then 3
  else 4

/-- Model of Rust `str::len`: the UTF-8 byte length. -/
def rustByteLen (s : String) : Nat :=
  (s.data.map rustCharLen).sum

/-- Embedding of `validate_project_name`.  Rust `str::len` counts UTF-8
bytes (`rustByteLen`), `char::is_alphanumeric` is Unicode-wide rather than
ASCII, and `starts_with` with a `char` pattern compares the first
character. -/
def validate_project_name (name : String) : Except String Unit :=
  if name = "" then
    .error "Project name cannot be empty"
  else if rustByteLen name > 64 then
    .error "Project name cannot exceed 64 characters"
  else if ¬ (name.data.all fun c => rustIsAlphanumeric c || c = '-' || c = '_') then
    .error "Project name can only contain alphanumeric characters, hyphens, and underscores"
  else if name.data.head? = some '-' || name.data.head? = some '_' then
    .error "Project name cannot start with a hyphen or underscore"
  else
    .ok ()

/-- ASCII letter or digit, `[A-Za-z0-9]`. -/
def asciiAlnum (c : Char) : Bool :=
  let n := c.toNat
  (0x30 ≤ n ∧ n ≤ 0x39) ∨ (0x41 ≤ n ∧ n ≤ 0x5A) ∨ (0x61 ≤ n ∧ n ≤ 0x7A)

/-- Modelled from the spec: matching against the regular expression
`^[A-Za-z0-9][A-Za-z0-9_-]\x7b0,63\x7d$` (one ASCII alphanumeric character
followed by at most 63 characters drawn from ASCII alphanumerics, `_` and
`-`).  This is the spec side of the refinement claim about
`validate_project_name`, written from the spec's words, not from the code. -/
def matchesSpecRegex (n : String) : Bool :=
  match n.data with
  | [] => false
  | c :: rest =>
    asciiAlnum c && rest.length ≤ 63 &&
      rest.all (fun d => asciiAlnum d || d = '-' || d = '_')

/-! ### Reverse proxy (`proj-daemon/src/proxy.rs`) -/

/-- Split a character list at every character satisfying `p`; the separators
are dropped and empty fields are kept (the behaviour of Rust `str::split`). -/
def splitBy (p : Char → Bool) : List Char → List (List Char)
  | [] => [[]]
  | c :: rest =>
    let r := splitBy p rest
    if p c then [] :: r
    else
      match r with
      | [] => [[c]]
      | g :: gs => (c :: g) :: gs

/-- Outcome of `handle_request`, abstracting the HTTP response: `notFound`
is the 404 answer built by `not_found_response` (no backend TCP connection is
attempted), `forward port` means the request is handed to `forward_request`,
which opens a TCP connection to `127.0.0.1:port` (and yields the backend
response or a 502). -/
inductive ProxyOutcome where
  | notFound (message : String)
  | forward (port : Nat)
deriving DecidableEq, Repr

/-- Project-name extraction in `handle_request`: the `Host` header (empty
string when the header is missing or not valid UTF-8), split at `'.'`, first
component. -/
def extractProjectName (hostHeader : Option String) : String :=
  String.mk ((splitBy (· = '.') (hostHeader.getD "").data).headD [])

/-- Embedding of `handle_request`, with the routing table passed as its entry
list.  The body text of the 404 responses mirrors the source. -/
def handle_request (hostHeader : Option String) (table : List (String × Nat)) :
    ProxyOutcome :=
  let project_name := extractProjectName hostHeader
  if project_name = "" || project_name = "localhost" then
    .notFound "No project specified. Use <project>.localhost:8080"
  else
    match alLookup project_name table with
    | some port => .forward port
    | none =>
      .notFound ("Project '" ++ project_name ++ "' not found or has no running process")

/-! ### Port detection (`proj-daemon/src/process.rs`, `detect_port`)

`detect_port` runs `lsof -i -P -n -a -p <pid>` and parses its standard
output.  The embedding takes that output text as its argument and models the
parsing loop; the string primitives used by the Rust code (`str::lines`,
`str::split_whitespace`, `str::rsplit(':')`, `u16::from_str`) are embedded
over `List Char` (`splitBy` is defined with the proxy above). -/

/-- Model of Rust `char::is_whitespace` (Unicode `White_Space`), exact on
code points below U+0100 — the only ones this development evaluates it on. -/
def rustIsWhitespace (c : Char) : Bool :=
  c = ' ' || c = '\t' || c = '\n' || c = '\x0b' || c = '\x0c' || c = '\r' ||
  c = '\x85' || c = '\xa0'

/-- Rust `str::lines`: split on `'\n'`, drop a final empty line produced by a
trailing newline, and strip one trailing `'\r'` from each line. -/
def rustLines (s : List Char) : List (List Char) :=
  let parts := splitBy (· = '\n') s
  let parts := if parts.getLast? = some [] then parts.dropLast else parts
  parts.map (fun l => if l.getLast? = some '\r' then l.dropLast else l)

/-- Rust `str::split_whitespace`: fields separated by runs of whitespace. -/
def rustSplitWhitespace (s : List Char) : List (List Char) :=
  (splitBy rustIsWhitespace s).filter (fun g => decide (g ≠ []))

/-- Rust `part.rsplit(':').next()`: the suffix after the last `':'`, or the
whole string when there is no `':'`. -/
def afterLastColon (part : List Char) : List Char :=
  (part.reverse.takeWhile (fun c => decide (c ≠ ':'))).reverse

/-- Rust `s.parse::<u16>()`: an optional leading `'+'`, then one or more
ASCII digits, value at most `65535`; anything else fails. -/
def rustParseU16 (s : List Char) : Option Nat :=
  let digits := match s with
    | '+' :: rest => rest
    | _ => s
  if digits = [] then none
  else if digits.all (·.isDigit) then
    let v := digits.foldl (fun acc c => acc * 10 + (c.toNat - '0'.toNat)) 0
    if v ≤ 65535 then some v else none
  else none

/-- Rust `line.contains("(LISTEN)")`. -/
def containsListenMarker (line : List Char) : Bool :=
  line.tails.any (fun t => "(LISTEN)".data.isPrefixOf t)

/-- Embedding of the parsing loop of `detect_port`, applied to the captured
standard output of `lsof`.  For every line containing `"(LISTEN)"`, the
whitespace-separated columns are scanned in reverse; the literal column
`"(LISTEN)"` is skipped, and the first column whose suffix after the last
`':'` parses as a `u16` yields the returned port. -/
def detect_port (lsofStdout : String) : Option Nat :=
  (rustLines lsofStdout.data).findSome? (fun line =>
    if containsListenMarker line then
      (rustSplitWhitespace line).reverse.findSome? (fun part =>
        if part = "(LISTEN)".data then none
        else rustParseU16 (afterLastColon part))
    else none)

deriving instance DecidableEq for Except

/-! ### Process manager (`proj-daemon/src/process.rs`)

The `processes` map is the association list of `(process_id, info)` entries.
Operations that perform I/O (`Command::spawn`, `signal::kill`) take the
outcome of that I/O as an explicit argument. -/

/-- Tasks started by a successful `ProcessManager::spawn`.  Every event on
the event channel is sent by one of these tasks (or by the port-probe task),
never by `spawn` itself; an empty task list therefore means no event can
ever be sent for the call. -/
inductive SpawnedTask where
  | stdoutReader (process_id : Nat)
  | stderrReader (process_id : Nat)
  | waitTask (process_id : Nat)
  | portProbe (process_id : Nat) (pid : Nat)
deriving DecidableEq, Repr

/-- Embedding of `ProcessManager::spawn`.  `execResult` is the outcome of
`cmd.spawn()` for the requested command (`none` models an exec failure:
nonexistent command, permission denied or invalid working directory,
reported through the returned `io::Error`); `dummyOk` is the outcome of the
auxiliary `Command::new("true")` spawn that fills the record's unused
`child` slot.  Returns the spawn result, the new process map, and the tasks
started. -/
def ProcessManager.spawn (processes : List (Nat × ProcessInfo))
    (project_name : String) (command : String) (args : List String)
    (_working_dir : String) (execResult : Option Nat) (dummyOk : Bool)
    (process_id : Nat) (now : Nat) :
    Except String ProcessInfo × List (Nat × ProcessInfo) × List SpawnedTask :=
  match execResult with
  | none => (.error "Failed to spawn process", processes, [])
  | some pid =>
    let info : ProcessInfo :=
      { id := process_id
        project_name := project_name
        pid := pid
        command := command ++ " " ++ String.intercalate " " args
        started_at := now
        port := none
        status := .Running }
    let tasks : List SpawnedTask :=
      [.stdoutReader process_id, .stderrReader process_id,
       .waitTask process_id, .portProbe process_id pid]
    if dummyOk then
      (.ok info, alInsert process_id info processes, tasks)
    else
      (.error "dummy spawn failed", processes, tasks)

/-- Embedding of `ProcessManager::stop`.  `killOk` is the outcome of
`signal::kill(pid, SIGTERM)`; on failure the status is not touched. -/
def ProcessManager.stop (processes : List (Nat × ProcessInfo))
    (process_id : Nat) (killOk : Bool) :
    Except String Unit × List (Nat × ProcessInfo) :=
  match alLookup process_id processes with
  | none => (.error "Process not found", processes)
  | some _ =>
    if killOk then
      (.ok (), alUpdate process_id (fun m => { m with status := .Stopped }) processes)
    else
      (.error "Failed to send SIGTERM", processes)

/-- Embedding of `ProcessManager::update_status`. -/
def ProcessManager.update_status (processes : List (Nat × ProcessInfo))
    (process_id : Nat) (status : ProcessStatus) : List (Nat × ProcessInfo) :=
  alUpdate process_id (fun m => { m with status := status }) processes

/-- Embedding of `ProcessManager::update_port`. -/
def ProcessManager.update_port (processes : List (Nat × ProcessInfo))
    (process_id : Nat) (port : Nat) : List (Nat × ProcessInfo) :=
  alUpdate process_id (fun m => { m with port := some port }) processes

/-- Embedding of `ProcessManager::running_count`. -/
def ProcessManager.running_count (processes : List (Nat × ProcessInfo)) : Nat :=
  (processes.filter (fun e => e.2.status = .Running)).length

/-- Embedding of `ProcessManager::list` (the values in iteration order). -/
def ProcessManager.list (processes : List (Nat × ProcessInfo)) : List ProcessInfo :=
  processes.map (·.2)

/-- Embedding of `ProcessManager::list_for_project`. -/
def ProcessManager.list_for_project (processes : List (Nat × ProcessInfo))
    (project_name : String) : List ProcessInfo :=
  (processes.map (·.2)).filter (fun m => m.project_name = project_name)

/-- One comparison step of Rust `Iterator::max_by_key`: a later element
replaces the accumulator whenever its key is greater or equal, so among
equal keys the last element wins. -/
def maxStep {α : Type} (key : α → Nat) (acc : Option α) (x : α) : Option α :=
  match acc with
  | none => some x
  | some a => if key a ≤ key x then some x else some a

/-- Rust `Iterator::max_by_key`: the maximum under `key`, the last one in
iteration order when several elements are equally maximal. -/
def rustMaxByKey {α : Type} (key : α → Nat) (l : List α) : Option α :=
  l.foldl (maxStep key) none

/-- Embedding of `ProcessManager::find_by_project`: filter the values to the
`Running` records of the project, then `max_by_key` on `started_at`. -/
def ProcessManager.find_by_project (processes : List (Nat × ProcessInfo))
    (project_name : String) : Option ProcessInfo :=
  rustMaxByKey (·.started_at)
    ((processes.map (·.2)).filter
      (fun m => m.project_name = project_name && m.status = .Running))

/-! ### Registry (`proj-daemon/src/registry.rs`) -/

/-- Embedding of `Registry::create`.  `diskOk` is the outcome of
`save_project` (directory creation and `project.json` write); the in-memory
insert happens only after a successful save. -/
def Registry.create (registry : List (String × Project)) (name : String)
    (root_dir : String) (diskOk : Bool) (new_id : Nat) (now : Nat) :
    Except String Project × List (String × Project) :=
  match validate_project_name name with
  | .error e => (.error e, registry)
  | .ok () =>
    if alContainsKey name registry then
      (.error ("Project '" ++ name ++ "' already exists"), registry)
    else
      let project : Project :=
        { name := name, id := new_id, created_at := now, root_dir := root_dir,
          port := none }
      if diskOk then (.ok project, alInsert name project registry)
      else (.error "Failed to write project file", registry)

/-- Embedding of `Registry::update_port`.  The in-memory port is assigned
before `save_project` runs, so a failed save still leaves the new port in
the map. -/
def Registry.update_port (registry : List (String × Project)) (name : String)
    (port : Option Nat) (diskOk : Bool) :
    Except String Unit × List (String × Project) :=
  match alLookup name registry with
  | none => (.error ("Project '" ++ name ++ "' not found"), registry)
  | some _ =>
    let registry := alUpdate name (fun p => { p with port := port }) registry
    if diskOk then (.ok (), registry) else (.error "Failed to write project file", registry)

/-! ### Daemon state and event handler (`proj-daemon/src/ipc.rs`) -/

/-- Embedding of `DaemonState`: the registry map, the process map and the
routing table, each as its entry list. -/
structure DaemonState where
  registry : List (String × Project)
  processes : List (Nat × ProcessInfo)
  routing : List (String × Nat)
deriving DecidableEq, Repr

def initState : DaemonState := { registry := [], processes := [], routing := [] }

/-- The `PortDetected` arm of `process_event_handler`: update the record's
port, then look the record up again; if it exists, install its project name
in the routing table and persist the port to the registry (`diskOk` is the
outcome of the registry disk write; its error is logged, not propagated). -/
def handlePortDetected (st : DaemonState) (process_id : Nat) (port : Nat)
    (diskOk : Bool) : DaemonState :=
  let processes := ProcessManager.update_port st.processes process_id port
  match alLookup process_id processes with
  | some info =>
    let routing := alInsert info.project_name port st.routing
    let registry := (Registry.update_port st.registry info.project_name (some port) diskOk).2
    { registry := registry, processes := processes, routing := routing }
  | none => { st with processes := processes }

/-- The `Exited` arm of `process_event_handler`: read the record's project
name before mutation, set the status to `Stopped` on exit code 0 and
`Failed` otherwise, and remove the project's routing entry
unconditionally. -/
def handleExited (st : DaemonState) (process_id : Nat) (exit_code : Option Int) :
    DaemonState :=
  let project_name := (alLookup process_id st.processes).map (·.project_name)
  let status := if exit_code = some 0 then ProcessStatus.Stopped else ProcessStatus.Failed
  let processes := ProcessManager.update_status st.processes process_id status
  match project_name with
  | some name => { st with processes := processes, routing := alRemove name st.routing }
  | none => { st with processes := processes }

/-! ### The daemon as a transition system

One step per state-mutating operation reachable in the daemon:
a successful spawn (IPC `run_command`), a `stop` call (IPC `stop_process`,
with the outcome of the SIGTERM), and the two event-handler arms.  Read-only
IPC requests do not change the state and are omitted from the step
relation. -/

inductive DaemonOp where
  | spawnOp (project : String) (command : String) (args : List String)
      (process_id : Nat) (pid : Nat) (now : Nat)
  | stopOp (process_id : Nat) (killOk : Bool)
  | portDetectedOp (process_id : Nat) (port : Nat) (diskOk : Bool)
  | exitedOp (process_id : Nat) (exit_code : Option Int)
deriving DecidableEq, Repr

def DaemonState.step (st : DaemonState) : DaemonOp → DaemonState
  | .spawnOp project command args process_id pid now =>
    { st with
      processes :=
        (ProcessManager.spawn st.processes project command args "" (some pid) true
          process_id now).2.1 }
  | .stopOp process_id killOk =>
    { st with processes := (ProcessManager.stop st.processes process_id killOk).2 }
  | .portDetectedOp process_id port diskOk => handlePortDetected st process_id port diskOk
  | .exitedOp process_id exit_code => handleExited st process_id exit_code

def run (ops : List DaemonOp) : DaemonState :=
  ops.foldl DaemonState.step initState

/-- The process id allocated by a spawn step, `none` for the other steps. -/
def spawnId : DaemonOp → Option Nat
  | .spawnOp _ _ _ process_id _ _ => some process_id
  | _ => none

def spawnIds (ops : List DaemonOp) : List Nat := ops.filterMap spawnId

def isPortDetectedFor (process_id : Nat) : DaemonOp → Bool
  | .portDetectedOp id _ _ => id = process_id
  | _ => false

def isExitedFor (process_id : Nat) : DaemonOp → Bool
  | .exitedOp id _ => id = process_id
  | _ => false

/-- Per-process event ordering of the supervisor: the port-probe task stops
at its first detection and the wait task fires once at exit, so no
`PortDetected` for a process is delivered after its `Exited`.  This predicate
states that shape on an operation sequence. -/
def noPortDetectAfterExit : List DaemonOp → Bool
  | [] => true
  | op :: rest =>
    (match op with
     | .exitedOp id _ => rest.all (fun op' => !isPortDetectedFor id op')
     | _ => true) && noPortDetectAfterExit rest

/-! ### IPC dispatcher (`proj-daemon/src/ipc.rs`, `handle_connection`) -/

/-- Embedding of `proj_common::IpcRequest` (the `Uuid` in `stop_process` is
modelled as `Nat`, paths as `String`). -/
inductive IpcRequest where
  | create_project (name : String) (root_dir : String)
  | list_projects
  | get_project (name : String)
  | run_command (project_name : String) (command : String) (args : List String)
  | stop_process (project_name : String) (process_id : Nat)
  | list_processes (project_name : Option String)
  | status
  | shutdown
deriving DecidableEq, Repr

/-- Embedding of `proj_common::IpcResponse`. -/
inductive IpcResponse where
  | success (message : Option String)
  | project (p : Project)
  | projects (ps : List Project)
  | process_started (process : ProcessInfo)
  | processes (ps : List ProcessInfo)
  | status (running : Bool) (project_count : Nat) (process_count : Nat)
  | error (message : String)
deriving DecidableEq, Repr

/-- The I/O outcomes and fresh values consumed while handling one IPC
request: the allocated UUID and timestamp, the `cmd.spawn()` outcome (`none`
is an exec failure), the auxiliary dummy-spawn outcome, the SIGTERM outcome,
and the registry disk-write outcome. -/
structure IpcEnv where
  new_uuid : Nat
  now : Nat
  child_pid : Option Nat
  dummy_ok : Bool
  kill_ok : Bool
  disk_ok : Bool
deriving DecidableEq, Repr

/-- Embedding of the `handle_request` dispatcher of `ipc.rs` (the IPC one,
distinct from the proxy's `handle_request`): one response and the updated
state per request. -/
def handleIpcRequest (req : IpcRequest) (st : DaemonState) (env : IpcEnv) :
    IpcResponse × DaemonState :=
  match req with
  | .create_project name root_dir =>
    let (r, registry) :=
      Registry.create st.registry name root_dir env.disk_ok env.new_uuid env.now
    match r with
    | .ok p => (.project p, { st with registry := registry })
    | .error e => (.error e, { st with registry := registry })
  | .list_projects => (.projects (st.registry.map (·.2)), st)
  | .get_project name =>
    match alLookup name st.registry with
    | some p => (.project p, st)
    | none => (.error ("Project '" ++ name ++ "' not found"), st)
  | .run_command project_name command args =>
    match alLookup project_name st.registry with
    | none => (.error ("Project '" ++ project_name ++ "' not found"), st)
    | some p =>
      let (r, processes, _tasks) :=
        ProcessManager.spawn st.processes project_name command args p.root_dir
          env.child_pid env.dummy_ok env.new_uuid env.now
      match r with
      | .ok info => (.process_started info, { st with processes := processes })
      | .error e => (.error e, { st with processes := processes })
  | .stop_process _ process_id =>
    let (r, processes) := ProcessManager.stop st.processes process_id env.kill_ok
    match r with
    | .ok () =>
      (.success (some ("Process " ++ toString process_id ++ " stopped")),
       { st with processes := processes })
    | .error e => (.error e, { st with processes := processes })
  | .list_processes project_name =>
    match project_name with
    | some name => (.processes (ProcessManager.list_for_project st.processes name), st)
    | none => (.processes (ProcessManager.list st.processes), st)
  | .status =>
    (.status true st.registry.length (ProcessManager.running_count st.processes), st)
  | .shutdown => (.success (some "Shutting down"), st)

/-- Embedding of `handle_connection`.  The input is the first line of the
connection after reading: `none` models an empty read (the connection is
closed with nothing written); `some parsed` models a nonempty line together
with its `serde_json` decode outcome, which is library behaviour outside
`src/` and is therefore taken as an input.  The result is the list of
responses written back — each one is serialised to a single JSON line
terminated by exactly one `'\n'` — together with the state after the
connection; the function always returns (the Rust function returns `Ok` on
every one of these paths). -/
def handle_connection (input : Option (Except String IpcRequest))
    (st : DaemonState) (env : IpcEnv) : List IpcResponse × DaemonState :=
  match input with
  | none => ([], st)
  | some (.error e) => ([.error ("Invalid request: " ++ e)], st)
  | some (.ok req) =>
    let (resp, st') := handleIpcRequest req st env
    ([resp], st')

/-! ### Routing-table operation sequences (claim C2) -/

/-- The two write operations on the routing table: `install(n,p)` is the
`table.insert(project_name, port)` of the `PortDetected` arm, `remove(n)`
the `table.remove(&name)` of the `Exited` arm. -/
inductive RTOp where
  | install (name : String) (port : Nat)
  | remove (name : String)
deriving DecidableEq, Repr

def RTOp.key : RTOp → String
  | .install n _ => n
  | .remove n => n

def applyRTOp (t : List (String × Nat)) : RTOp → List (String × Nat)
  | .install n p => alInsert n p t
  | .remove n => alRemove n t

/-- Run a sequence of routing-table writes against the initially empty
table. -/
def applyRTOps (ops : List RTOp) : List (String × Nat) :=
  ops.foldl applyRTOp []

/-- The most recent operation in `ops` whose key is `n`. -/
def lastRTOpOn (n : String) (ops : List RTOp) : Option RTOp :=
  (ops.filter (fun op => op.key = n)).getLast?

/-! ### Spec-side definitions for `find_by_project` (claim C9) -/

/-- Modelled from the spec: the most recently started record with ties among
equal `started_at` broken by the `process_id`, reading the tie-break as
preferring the greatest id.  Spec side of the refinement claim about
`find_by_project`. -/
def specMaxStartedThenGreatestId (l : List ProcessInfo) : Option ProcessInfo :=
  l.foldl
    (fun acc x =>
      match acc with
      | none => some x
      | some a =>
        if a.started_at < x.started_at ∨ (a.started_at = x.started_at ∧ a.id < x.id)
        then some x else some a)
    none

/-- Modelled from the spec: as `specMaxStartedThenGreatestId` but reading the
tie-break as preferring the least id. -/
def specMaxStartedThenLeastId (l : List ProcessInfo) : Option ProcessInfo :=
  l.foldl
    (fun acc x =>
      match acc with
      | none => some x
      | some a =>
        if a.started_at < x.started_at ∨ (a.started_at = x.started_at ∧ x.id < a.id)
        then some x else some a)
    none

/-! ### Routing-table invariants (claim C1) -/

/-- The invariant exactly as the claim states it: every routing entry
`(n, p)` is witnessed by a record with that project name, status `Running`
and port `Some p`. -/
def RoutingRunningWitnessed (st : DaemonState) : Prop :=
  ∀ n p, alLookup n st.routing = some p →
    ∃ e ∈ st.processes,
      e.2.project_name = n ∧ e.2.status = .Running ∧ e.2.port = some p

/-- The invariant the code actually maintains: every routing entry `(n, p)`
is witnessed by a record with that project name and port `Some p` whose
status is `Running` or `Stopped` (`Stopped` occurs when `stop` marked the
record before its `Exited` event was processed). -/
def RoutingWitnessed (st : DaemonState) : Prop :=
  ∀ n p, alLookup n st.routing = some p →
    ∃ e ∈ st.processes,
      e.2.project_name = n ∧ e.2.port = some p ∧
        (e.2.status = .Running ∨ e.2.status = .Stopped)

/-! ## Theorems

First the association-list toolbox, then the per-claim developments. -/

theorem alLookup_nil {K V : Type} [DecidableEq K] (k : K) :
    alLookup k ([] : List (K × V)) = none := rfl

theorem alLookup_cons {K V : Type} [DecidableEq K] (k : K) (e : K × V)
    (rest : List (K × V)) :
    alLookup k (e :: rest) = if e.1 = k then some e.2 else alLookup k rest := rfl

theorem alUpdate_cons {K V : Type} [DecidableEq K] (k : K) (f : V → V) (e : K × V)
    (rest : List (K × V)) :
    alUpdate k f (e :: rest) =
      (if e.1 = k then (e.1, f e.2) else e) :: alUpdate k f rest := rfl

theorem alRemove_cons {K V : Type} [DecidableEq K] (k : K) (e : K × V)
    (rest : List (K × V)) :
    alRemove k (e :: rest) =
      if e.1 = k then alRemove k rest else e :: alRemove k rest := by
  by_cases h : e.1 = k
  · simp [alRemove, List.filter_cons, h]
  · simp [alRemove, List.filter_cons, h]

theorem alLookup_eq_none_iff {K V : Type} [DecidableEq K] (k : K) (l : List (K × V)) :
    alLookup k l = none ↔ ∀ e ∈ l, e.1 ≠ k := by
  induction l with
  | nil => simp [alLookup_nil]
  | cons e rest ih =>
    rw [alLookup_cons]
    by_cases h : e.1 = k
    · simp [h]
    · simp [h, ih]

theorem mem_of_alLookup_eq_some {K V : Type} [DecidableEq K] {k : K} {v : V}
    {l : List (K × V)} (h : alLookup k l = some v) : (k, v) ∈ l := by
  induction l with
  | nil => simp [alLookup_nil] at h
  | cons e rest ih =>
    rw [alLookup_cons] at h
    by_cases he : e.1 = k
    · rw [if_pos he] at h
      obtain ⟨a, b⟩ := e
      obtain rfl : a = k := he
      obtain rfl : b = v := Option.some.inj h
      exact List.mem_cons_self _ _
    · rw [if_neg he] at h
      exact List.mem_cons_of_mem e (ih h)

theorem alLookup_append {K V : Type} [DecidableEq K] (k : K) (l₁ l₂ : List (K × V)) :
    alLookup k (l₁ ++ l₂) =
      match alLookup k l₁ with
      | some v => some v
      | none => alLookup k l₂ := by
  induction l₁ with
  | nil => simp [alLookup_nil]
  | cons e rest ih =>
    rw [List.cons_append, alLookup_cons, alLookup_cons]
    by_cases h : e.1 = k
    · rw [if_pos h, if_pos h]
    · rw [if_neg h, if_neg h, ih]

theorem alLookup_mapReplace {K V : Type} [DecidableEq K] (k k' : K) (v : V)
    (l : List (K × V)) :
    alLookup k' (l.map (fun e => if e.1 = k then (e.1, v) else e)) =
      if k' = k then (alLookup k l).map (fun _ => v) else alLookup k' l := by
  induction l with
  | nil =>
    by_cases hk' : k' = k
    · simp [alLookup_nil, hk']
    · simp [alLookup_nil, hk']
  | cons e rest ih =>
    rw [List.map_cons]
    by_cases hk' : k' = k
    · subst hk'
      rw [if_pos rfl]
      by_cases hek : e.1 = k'
      · rw [if_pos hek, alLookup_cons, alLookup_cons,
          if_pos (show (e.1, v).1 = k' from hek), if_pos hek]
        simp
      · rw [if_neg hek, alLookup_cons, alLookup_cons, if_neg hek, if_neg hek, ih,
          if_pos rfl]
    · rw [if_neg hk']
      by_cases hek : e.1 = k
      · have h1 : ¬ e.1 = k' := fun hh => hk' (by rw [← hh, hek])
        rw [if_pos hek, alLookup_cons, alLookup_cons,
          if_neg (show ¬ (e.1, v).1 = k' from h1), if_neg h1, ih, if_neg hk']
      · rw [if_neg hek, alLookup_cons, alLookup_cons]
        by_cases he' : e.1 = k'
        · rw [if_pos he', if_pos he']
        · rw [if_neg he', if_neg he', ih, if_neg hk']

theorem alLookup_insert {K V : Type} [DecidableEq K] (k k' : K) (v : V)
    (l : List (K × V)) :
    alLookup k' (alInsert k v l) = if k' = k then some v else alLookup k' l := by
  unfold alInsert
  by_cases h : alContainsKey k l
  · rw [if_pos h, alLookup_mapReplace]
    unfold alContainsKey at h
    by_cases hk' : k' = k
    · subst hk'
      rw [if_pos rfl, if_pos rfl]
      cases hl : alLookup k' l with
      | none => rw [hl] at h; simp at h
      | some w => simp
    · rw [if_neg hk', if_neg hk']
  · rw [if_neg h, alLookup_append]
    unfold alContainsKey at h
    by_cases hk' : k' = k
    · subst hk'
      cases hl : alLookup k' l with
      | none => simp [alLookup_cons, alLookup_nil]
      | some w => rw [hl] at h; simp at h
    · cases hl : alLookup k' l with
      | none =>
        have : ¬ k = k' := fun hh => hk' hh.symm
        simp [alLookup_cons, alLookup_nil, this, hk']
      | some w => simp [hk']

theorem alLookup_remove {K V : Type} [DecidableEq K] (k k' : K) (l : List (K × V)) :
    alLookup k' (alRemove k l) = if k' = k then none else alLookup k' l := by
  induction l with
  | nil =>
    cases h : decide (k' = k) with
    | true => simp [alRemove, alLookup_nil, of_decide_eq_true h]
    | false => simp [alRemove, alLookup_nil]
  | cons e rest ih =>
    rw [alRemove_cons, alLookup_cons]
    by_cases hek : e.1 = k
    · rw [if_pos hek, ih]
      by_cases hk' : k' = k
      · rw [if_pos hk', if_pos hk']
      · have h1 : ¬ e.1 = k' := fun hh => hk' (by rw [← hh, hek])
        rw [if_neg hk', if_neg hk', if_neg h1]
    · rw [if_neg hek, alLookup_cons]
      by_cases he' : e.1 = k'
      · have hk' : ¬ k' = k := fun hh => hek (he'.trans hh)
        rw [if_pos he', if_pos he', if_neg hk']
      · rw [if_neg he', if_neg he', ih]

theorem alLookup_update {K V : Type} [DecidableEq K] (k k' : K) (f : V → V)
    (l : List (K × V)) :
    alLookup k' (alUpdate k f l) =
      if k' = k then (alLookup k l).map f else alLookup k' l := by
  induction l with
  | nil =>
    by_cases hk' : k' = k
    · simp [alUpdate, alLookup_nil, hk']
    · simp [alUpdate, alLookup_nil, hk']
  | cons e rest ih =>
    rw [alUpdate_cons]
    by_cases hk' : k' = k
    · subst hk'
      rw [if_pos rfl]
      by_cases hek : e.1 = k'
      · rw [if_pos hek, alLookup_cons, alLookup_cons,
          if_pos (show (e.1, f e.2).1 = k' from hek), if_pos hek]
        simp
      · rw [if_neg hek, alLookup_cons, alLookup_cons, if_neg hek, if_neg hek, ih,
          if_pos rfl]
    · rw [if_neg hk']
      by_cases hek : e.1 = k
      · have h1 : ¬ e.1 = k' := fun hh => hk' (by rw [← hh, hek])
        rw [if_pos hek, alLookup_cons, alLookup_cons,
          if_neg (show ¬ (e.1, f e.2).1 = k' from h1), if_neg h1, ih, if_neg hk']
      · rw [if_neg hek, alLookup_cons, alLookup_cons]
        by_cases he' : e.1 = k'
        · rw [if_pos he', if_pos he']
        · rw [if_neg he', if_neg he', ih, if_neg hk']

theorem mem_alUpdate_of_ne {K V : Type} [DecidableEq K] {e : K × V} {l : List (K × V)}
    (k : K) (f : V → V) (hmem : e ∈ l) (hne : ¬ e.1 = k) : e ∈ alUpdate k f l := by
  refine List.mem_map.mpr ⟨e, hmem, ?_⟩
  show (if e.1 = k then (e.1, f e.2) else e) = e
  rw [if_neg hne]

theorem mem_alUpdate_self {K V : Type} [DecidableEq K] {k : K} {v : V}
    {l : List (K × V)} (f : V → V) (hmem : (k, v) ∈ l) : (k, f v) ∈ alUpdate k f l := by
  refine List.mem_map.mpr ⟨(k, v), hmem, ?_⟩
  show (if (k, v).1 = k then ((k, v).1, f (k, v).2) else (k, v)) = (k, f v)
  rw [if_pos rfl]

theorem alInsert_of_not_contains {K V : Type} [DecidableEq K] {k : K}
    {l : List (K × V)} (v : V) (h : ¬ alContainsKey k l = true) :
    alInsert k v l = l ++ [(k, v)] := by
  unfold alInsert
  rw [if_neg h]

theorem alContainsKey_eq_false_of_lookup_none {K V : Type} [DecidableEq K] {k : K}
    {l : List (K × V)} (h : alLookup k l = none) : ¬ alContainsKey k l = true := by
  unfold alContainsKey
  rw [h]
  simp

theorem alUpdate_keys {K V : Type} [DecidableEq K] (k : K) (f : V → V)
    (l : List (K × V)) : (alUpdate k f l).map (·.1) = l.map (·.1) := by
  induction l with
  | nil => rfl
  | cons e rest ih =>
    rw [alUpdate_cons, List.map_cons, List.map_cons, ih]
    by_cases h : e.1 = k
    · rw [if_pos h]
    · rw [if_neg h]

theorem alNodupKeys_nil {K V : Type} : alNodupKeys ([] : List (K × V)) := by
  simp [alNodupKeys]

theorem alNodupKeys_update {K V : Type} [DecidableEq K] (k : K) (f : V → V)
    {l : List (K × V)} (h : alNodupKeys l) : alNodupKeys (alUpdate k f l) := by
  unfold alNodupKeys at h ⊢
  rw [alUpdate_keys]
  exact h

theorem alNodupKeys_append_fresh {K V : Type} [DecidableEq K] {k : K} (v : V)
    {l : List (K × V)} (h : alNodupKeys l) (hfresh : alLookup k l = none) :
    alNodupKeys (l ++ [(k, v)]) := by
  unfold alNodupKeys at h ⊢
  rw [List.map_append]
  have hk : k ∉ l.map (·.1) := by
    intro hmem
    obtain ⟨e, he, hek⟩ := List.mem_map.mp hmem
    exact ((alLookup_eq_none_iff k l).mp hfresh e he) hek
  rw [List.nodup_append]
  refine ⟨h, List.nodup_singleton k, ?_⟩
  intro a ha hb
  rw [List.map_singleton, List.mem_singleton] at hb
  have hb' : a = k := hb
  exact hk (hb' ▸ ha)

theorem alNodupKeys_remove {K V : Type} [DecidableEq K] (k : K) {l : List (K × V)}
    (h : alNodupKeys l) : alNodupKeys (alRemove k l) := by
  unfold alNodupKeys at h ⊢
  exact ((List.filter_sublist l).map (·.1)).nodup h

theorem alLookup_eq_of_mem_nodup {K V : Type} [DecidableEq K] {l : List (K × V)}
    {e : K × V} (hnd : alNodupKeys l) (hmem : e ∈ l) : alLookup e.1 l = some e.2 := by
  induction l with
  | nil => cases hmem
  | cons a rest ih =>
    unfold alNodupKeys at hnd
    rw [List.map_cons, List.nodup_cons] at hnd
    obtain ⟨ha, hnd'⟩ := hnd
    cases hmem with
    | head => rw [alLookup_cons, if_pos rfl]
    | tail _ hmem' =>
      have hne : ¬ a.1 = e.1 := by
        intro hh
        exact ha (hh ▸ List.mem_map_of_mem (·.1) hmem')
      rw [alLookup_cons, if_neg hne]
      exact ih hnd' hmem'

/-! ### Claim C2: routing-table writes and lookups -/

theorem applyRTOps_concat (ops : List RTOp) (op : RTOp) :
    applyRTOps (ops ++ [op]) = applyRTOp (applyRTOps ops) op := by
  unfold applyRTOps
  rw [List.foldl_append]
  rfl

theorem lastRTOpOn_concat (n : String) (ops : List RTOp) (op : RTOp) :
    lastRTOpOn n (ops ++ [op]) =
      if op.key = n then some op else lastRTOpOn n ops := by
  unfold lastRTOpOn
  rw [List.filter_append]
  by_cases h : op.key = n
  · simp [h, List.filter_singleton]
  · simp [h, List.filter_singleton]

/-- C2: for every finite sequence of `install(n,p)` / `remove(n)` writes on
the routing table, a lookup of `n` afterwards returns `p` when the most
recent operation with key `n` was `install(n,p)`, and `none` when it was
`remove(n)` (or when no operation ever touched `n`); operations on other
keys do not affect the result, since the right-hand side depends only on the
subsequence of operations whose key is `n`. -/
theorem routing_lookup_returns_last_write (ops : List RTOp) (n : String) :
    alLookup n (applyRTOps ops) =
      match lastRTOpOn n ops with
      | some (.install _ p) => some p
      | some (.remove _) => none
      | none => none := by
  induction ops using List.list_reverse_induction with
  | base => simp [applyRTOps, lastRTOpOn, alLookup_nil]
  | ind ops op ih =>
    rw [applyRTOps_concat, lastRTOpOn_concat]
    cases op with
    | install m p =>
      simp only [applyRTOp]
      rw [alLookup_insert]
      by_cases h : m = n
      · rw [if_pos h.symm, if_pos (show RTOp.key (.install m p) = n from h)]
      · rw [if_neg (fun hh => h hh.symm),
          if_neg (show ¬ RTOp.key (.install m p) = n from h), ih]
    | remove m =>
      simp only [applyRTOp]
      rw [alLookup_remove]
      by_cases h : m = n
      · rw [if_pos h.symm, if_pos (show RTOp.key (.remove m) = n from h)]
      · rw [if_neg (fun hh => h hh.symm),
          if_neg (show ¬ RTOp.key (.remove m) = n from h), ih]

/-! ### Claim C3: exec failure in `ProcessManager::spawn` -/

/-- C3: when the child command fails to exec (`cmd.spawn()` returns an
error, here `execResult = none`), `spawn` returns an error, the process map
is returned unchanged — no `ManagedProcess` record is inserted — and no task
is started, so nothing is ever sent on the event channel for this call. -/
theorem spawn_exec_failure_inserts_nothing
    (processes : List (Nat × ProcessInfo)) (project_name command : String)
    (args : List String) (working_dir : String) (dummyOk : Bool)
    (process_id now : Nat) :
    ProcessManager.spawn processes project_name command args working_dir none
        dummyOk process_id now
      = (.error "Failed to spawn process", processes, []) := rfl

/-! ### Claim C4: the `Exited` arm of the event handler -/

/-- C4: for an `Exited` event whose `process_id` matches an existing record,
the record's status becomes `Stopped` exactly when the exit code is `Some 0`
and `Failed` otherwise (including `None`), and the routing entry for the
record's project name is removed unconditionally — the statement puts no
constraint on the other records, so it covers states where another `Running`
process of the same project exists. -/
theorem exited_event_sets_status_and_removes_route (st : DaemonState)
    (process_id : Nat) (exit_code : Option Int) (info : ProcessInfo)
    (h : alLookup process_id st.processes = some info) :
    alLookup process_id (handleExited st process_id exit_code).processes =
      some { info with
        status := if exit_code = some 0 then ProcessStatus.Stopped else .Failed }
    ∧ alLookup info.project_name (handleExited st process_id exit_code).routing
        = none := by
  unfold handleExited ProcessManager.update_status
  simp only [h, Option.map_some']
  constructor
  · rw [alLookup_update, if_pos rfl, h, Option.map_some']
  · rw [alLookup_remove, if_pos rfl]

/-- Witness for C4 at a concrete state: two `Running` records for project
`"a"`; the `Exited{0, Some 1}` event marks record `0` `Failed` and removes
the `"a"` route even though record `1` is still `Running`. -/
theorem exited_event_sets_status_and_removes_route_witness :
    alLookup 0 (handleExited
        { registry := []
          processes := [(0, ⟨0, "a", 100, "npm start", 5, some 3000, .Running⟩),
                        (1, ⟨1, "a", 101, "npm start", 6, none, .Running⟩)]
          routing := [("a", 3000)] } 0 (some 1)).processes
      = some ⟨0, "a", 100, "npm start", 5, some 3000, .Failed⟩
    ∧ alLookup "a" (handleExited
        { registry := []
          processes := [(0, ⟨0, "a", 100, "npm start", 5, some 3000, .Running⟩),
                        (1, ⟨1, "a", 101, "npm start", 6, none, .Running⟩)]
          routing := [("a", 3000)] } 0 (some 1)).routing = none :=
  exited_event_sets_status_and_removes_route _ 0 (some 1)
    ⟨0, "a", 100, "npm start", 5, some 3000, .Running⟩ (by rfl)

/-! ### Claim C5: requests the proxy answers with 404 -/

/-- C5: a request whose extracted project name (substring of the `Host`
header before the first `'.'`, empty when the header is missing) is empty,
equal to `"localhost"`, or absent from the routing table is answered with a
404 `notFound` response, and no backend TCP connection is attempted (only
the `forward` outcome dials the backend).  In particular `Host:
localhost:8080` extracts the name `"localhost:8080"`, which cannot be a
routing-table key when all keys are validated project names, so such a
request receives 404. -/
theorem proxy_unroutable_host_gets_404 :
    (∀ (hostHeader : Option String) (table : List (String × Nat)),
      (extractProjectName hostHeader = "" ∨
       extractProjectName hostHeader = "localhost" ∨
       alLookup (extractProjectName hostHeader) table = none) →
      ∃ msg, handle_request hostHeader table = .notFound msg)
    ∧ (∀ table : List (String × Nat),
        (∀ e ∈ table, (validate_project_name e.1).isOk = true) →
        ∃ msg, handle_request (some "localhost:8080") table = .notFound msg) := by
  have main : ∀ (hostHeader : Option String) (table : List (String × Nat)),
      (extractProjectName hostHeader = "" ∨
       extractProjectName hostHeader = "localhost" ∨
       alLookup (extractProjectName hostHeader) table = none) →
      ∃ msg, handle_request hostHeader table = .notFound msg := by
    intro hostHeader table h
    by_cases h1 : extractProjectName hostHeader = "" ∨
        extractProjectName hostHeader = "localhost"
    · refine ⟨"No project specified. Use <project>.localhost:8080", ?_⟩
      unfold handle_request
      rcases h1 with h1 | h1 <;> simp [h1]
    · have hne1 : ¬ extractProjectName hostHeader = "" := fun hh => h1 (Or.inl hh)
      have hne2 : ¬ extractProjectName hostHeader = "localhost" := fun hh => h1 (Or.inr hh)
      have h2 : alLookup (extractProjectName hostHeader) table = none := by
        rcases h with h | h | h
        · exact absurd h hne1
        · exact absurd h hne2
        · exact h
      refine ⟨"Project '" ++ extractProjectName hostHeader ++
        "' not found or has no running process", ?_⟩
      unfold handle_request
      simp [hne1, hne2, h2]
  refine ⟨main, ?_⟩
  intro table hvalid
  refine main (some "localhost:8080") table (Or.inr (Or.inr ?_))
  cases hl : alLookup (extractProjectName (some "localhost:8080")) table with
  | none => rfl
  | some p =>
    have hex : extractProjectName (some "localhost:8080") = "localhost:8080" := by decide
    rw [hex] at hl
    have hmem := mem_of_alLookup_eq_some hl
    have hok := hvalid _ hmem
    have hbad : (validate_project_name "localhost:8080").isOk = false := by decide
    rw [show (("localhost:8080", p) : String × Nat).1 = "localhost:8080" from rfl] at hok
    rw [hbad] at hok
    cases hok

/-- Witness for C5 at concrete inputs: a missing `Host` header against the
empty table, and `Host: localhost:8080` against a table routing project
`"a"`. -/
theorem proxy_unroutable_host_gets_404_witness :
    (∃ msg, handle_request none [] = .notFound msg)
    ∧ (∃ msg, handle_request (some "localhost:8080") [("a", 3000)] = .notFound msg) :=
  ⟨proxy_unroutable_host_gets_404.1 none [] (Or.inl (by decide)),
   proxy_unroutable_host_gets_404.2 [("a", 3000)] (by decide)⟩

/-! ### Claim C7: range of ports returned by `detect_port` -/

/-- C7 (code bug): the parser of `detect_port` accepts any string that
parses as a `u16`, including `"0"`, so an lsof output carrying a LISTEN line
with port 0 makes it return `some 0` — contradicting the contract that
ports outside `1..=65535` are rejected. -/
theorem detect_port_returns_zero_on_port_zero_line :
    detect_port "nc  4242 dev    3u  IPv4 0x0      0t0  TCP *:0 (LISTEN)" = some 0 := by
  decide

/-! ### Claim C10: invalid JSON on an IPC connection -/

/-- C10: when the first line of an IPC connection does not decode as an
`IpcRequest` (`serde_json` returns an error `e`), `handle_connection` writes
exactly one response — an `error` whose message is `"Invalid request: "`
followed by the decode error, so it starts with `"Invalid request:"` — and
returns the daemon state unchanged (registry, process map and routing table
untouched); the connection is then closed normally, the function returning
rather than crashing. -/
theorem invalid_json_gets_one_error_and_no_mutation (e : String)
    (st : DaemonState) (env : IpcEnv) :
    handle_connection (some (.error e)) st env
      = ([.error ("Invalid request: " ++ e)], st)
    ∧ "Invalid request:".data <+: ("Invalid request: " ++ e).data := by
  constructor
  · rfl
  · rw [String.data_append]
    exact List.IsPrefix.trans (by decide) (List.prefix_append _ _)

/-! ### Claim C6: `validate_project_name` versus the spec regex -/

theorem rustIsAlphanumeric_eq_asciiAlnum {c : Char} (h : c.toNat ≤ 127) :
    rustIsAlphanumeric c = asciiAlnum c := by
  unfold rustIsAlphanumeric asciiAlnum
  simp only [decide_eq_decide]
  omega

theorem rustCharLen_eq_one {c : Char} (h : c.toNat ≤ 127) : rustCharLen c = 1 := by
  unfold rustCharLen
  rw [if_pos h]

theorem sum_rustCharLen_eq_length {l : List Char} (h : ∀ c ∈ l, c.toNat ≤ 127) :
    (l.map rustCharLen).sum = l.length := by
  induction l with
  | nil => rfl
  | cons c cs ih =>
    rw [List.map_cons, List.sum_cons, List.length_cons,
      rustCharLen_eq_one (h c (List.mem_cons_self _ _)),
      ih (fun d hd => h d (List.mem_cons_of_mem _ hd))]
    omega

theorem rustByteLen_eq_length {n : String} (h : ∀ c ∈ n.data, c.toNat ≤ 127) :
    rustByteLen n = n.data.length := by
  unfold rustByteLen
  exact sum_rustCharLen_eq_length h

theorem string_eq_empty_of_data_eq_nil {n : String} (h : n.data = []) : n = "" := by
  cases n
  simp only at h
  rw [h]

theorem validate_project_name_ok_iff (n : String) :
    validate_project_name n = .ok () ↔
      (n.data ≠ [] ∧ rustByteLen n ≤ 64 ∧
       (∀ c ∈ n.data, (rustIsAlphanumeric c || c = '-' || c = '_') = true) ∧
       ¬ n.data.head? = some '-' ∧ ¬ n.data.head? = some '_') := by
  unfold validate_project_name
  by_cases h1 : n = ""
  · rw [if_pos h1]
    apply iff_of_false (fun hh => by cases hh)
    exact fun hr => hr.1 (by rw [h1])
  · rw [if_neg h1]
    by_cases h2 : rustByteLen n > 64
    · rw [if_pos h2]
      apply iff_of_false (fun hh => by cases hh)
      exact fun hr => absurd hr.2.1 (by omega)
    · rw [if_neg h2]
      by_cases h3 : (n.data.all fun c => rustIsAlphanumeric c || c = '-' || c = '_') = true
      · rw [if_neg (not_not_intro h3)]
        by_cases h4 : n.data.head? = some '-' ∨ n.data.head? = some '_'
        · rw [if_pos (by
            rw [Bool.or_eq_true, decide_eq_true_eq, decide_eq_true_eq]
            exact h4)]
          apply iff_of_false (fun hh => by cases hh)
          intro hr
          rcases h4 with h4 | h4
          · exact hr.2.2.2.1 h4
          · exact hr.2.2.2.2 h4
        · rw [if_neg (by
            rw [Bool.or_eq_true, decide_eq_true_eq, decide_eq_true_eq]
            exact h4)]
          apply iff_of_true rfl
          refine ⟨fun hd => h1 (string_eq_empty_of_data_eq_nil hd), by omega,
            List.all_eq_true.mp h3, ?_, ?_⟩
          · exact fun hh => h4 (Or.inl hh)
          · exact fun hh => h4 (Or.inr hh)
      · rw [if_pos h3]
        apply iff_of_false (fun hh => by cases hh)
        exact fun hr => h3 (List.all_eq_true.mpr hr.2.2.1)

/-- C6 counterexample: `"é"` (U+00E9, a Unicode letter) is accepted by
`validate_project_name` — Rust `char::is_alphanumeric` is Unicode-wide —
but does not match `^[A-Za-z0-9][A-Za-z0-9_-]\x7b0,63\x7d$`, so the claimed
equivalence with the regex fails. -/
theorem validate_regex_counterexample :
    validate_project_name "é" = .ok () ∧ matchesSpecRegex "é" = false := by
  constructor
  · decide
  · decide

/-- C6 (amended): on ASCII strings, `validate_project_name` accepts exactly
the strings matching `^[A-Za-z0-9][A-Za-z0-9_-]\x7b0,63\x7d$`; on non-ASCII
strings the code is more permissive than the regex (any Unicode alphanumeric
character is allowed, with the length limit counted in UTF-8 bytes). -/
theorem validate_accepts_iff_regex_on_ascii (n : String)
    (h : ∀ c ∈ n.data, c.toNat ≤ 127) :
    (validate_project_name n = .ok ()) ↔ matchesSpecRegex n = true := by
  have hlen : rustByteLen n = n.data.length := rustByteLen_eq_length h
  rw [validate_project_name_ok_iff, hlen]
  unfold matchesSpecRegex
  cases hd : n.data with
  | nil => simp
  | cons c rest =>
    have hc : c.toNat ≤ 127 := h c (hd ▸ List.mem_cons_self c rest)
    have hrest : ∀ d ∈ rest, d.toNat ≤ 127 :=
      fun d hdm => h d (hd ▸ List.mem_cons_of_mem c hdm)
    show _ ↔ (asciiAlnum c && rest.length ≤ 63 &&
      rest.all fun d => asciiAlnum d || d = '-' || d = '_') = true
    rw [Bool.and_eq_true, Bool.and_eq_true, List.all_eq_true, decide_eq_true_eq]
    constructor
    · rintro ⟨-, hlen64, hall, hnd, hnu⟩
      rw [List.length_cons] at hlen64
      rw [List.head?_cons] at hnd hnu
      have hcd : ¬ c = '-' := fun hh => hnd (by rw [hh])
      have hcu : ¬ c = '_' := fun hh => hnu (by rw [hh])
      have hcc := hall c (List.mem_cons_self _ _)
      rw [rustIsAlphanumeric_eq_asciiAlnum hc, decide_eq_false hcd,
        decide_eq_false hcu, Bool.or_false, Bool.or_false] at hcc
      refine ⟨⟨hcc, by omega⟩, ?_⟩
      intro d hdm
      have hdd := hall d (List.mem_cons_of_mem _ hdm)
      rw [rustIsAlphanumeric_eq_asciiAlnum (hrest d hdm)] at hdd
      exact hdd
    · rintro ⟨⟨hca, hlen63⟩, hall⟩
      have hcd : ¬ c = '-' := by
        intro hh
        rw [hh] at hca
        exact absurd hca (by decide)
      have hcu : ¬ c = '_' := by
        intro hh
        rw [hh] at hca
        exact absurd hca (by decide)
      refine ⟨by simp, ?_, ?_, ?_, ?_⟩
      · rw [List.length_cons]
        omega
      · intro d hdm
        rcases List.mem_cons.mp hdm with rfl | hdm'
        · rw [rustIsAlphanumeric_eq_asciiAlnum hc, hca, Bool.true_or, Bool.true_or]
        · rw [rustIsAlphanumeric_eq_asciiAlnum (hrest d hdm')]
          exact hall d hdm'
      · rw [List.head?_cons]
        exact fun hh => hcd (Option.some.inj hh)
      · rw [List.head?_cons]
        exact fun hh => hcu (Option.some.inj hh)

/-- Witness for the amended C6 at the ASCII string `"my-app"`. -/
theorem validate_accepts_iff_regex_on_ascii_witness :
    (∀ c ∈ "my-app".data, c.toNat ≤ 127)
    ∧ ((validate_project_name "my-app" = .ok ()) ↔ matchesSpecRegex "my-app" = true) :=
  ⟨by decide, validate_accepts_iff_regex_on_ascii "my-app" (by decide)⟩

/-! ### Claim C9: `find_by_project` -/

theorem maxStep_foldl_from_some {α : Type} (key : α → Nat) (l : List α) (a₀ : α) :
    ∃ r, l.foldl (maxStep key) (some a₀) = some r ∧ (r = a₀ ∨ r ∈ l) ∧
      key a₀ ≤ key r ∧ ∀ x ∈ l, key x ≤ key r := by
  induction l generalizing a₀ with
  | nil => exact ⟨a₀, rfl, Or.inl rfl, Nat.le_refl _, by simp⟩
  | cons x rest ih =>
    rw [List.foldl_cons]
    by_cases hx : key a₀ ≤ key x
    · rw [show maxStep key (some a₀) x = some x from by simp [maxStep, hx]]
      obtain ⟨r, hr, hmem, hle, hall⟩ := ih x
      refine ⟨r, hr, ?_, Nat.le_trans hx hle, ?_⟩
      · rcases hmem with rfl | hmem
        · exact Or.inr (List.mem_cons_self _ _)
        · exact Or.inr (List.mem_cons_of_mem _ hmem)
      · intro y hy
        rcases List.mem_cons.mp hy with rfl | hy'
        · exact hle
        · exact hall y hy'
    · rw [show maxStep key (some a₀) x = some a₀ from by simp [maxStep, hx]]
      obtain ⟨r, hr, hmem, hle, hall⟩ := ih a₀
      refine ⟨r, hr, ?_, hle, ?_⟩
      · rcases hmem with rfl | hmem
        · exact Or.inl rfl
        · exact Or.inr (List.mem_cons_of_mem _ hmem)
      · intro y hy
        rcases List.mem_cons.mp hy with rfl | hy'
        · exact Nat.le_trans (Nat.le_of_lt (Nat.lt_of_not_le hx)) hle
        · exact hall y hy'

theorem rustMaxByKey_eq_none_iff {α : Type} (key : α → Nat) (l : List α) :
    rustMaxByKey key l = none ↔ l = [] := by
  cases l with
  | nil => simp [rustMaxByKey]
  | cons x rest =>
    unfold rustMaxByKey
    rw [List.foldl_cons,
      show maxStep key none x = some x from rfl]
    obtain ⟨r, hr, -, -, -⟩ := maxStep_foldl_from_some key rest x
    rw [hr]
    simp

theorem rustMaxByKey_mem_and_max {α : Type} (key : α → Nat) (l : List α) (r : α)
    (h : rustMaxByKey key l = some r) : r ∈ l ∧ ∀ x ∈ l, key x ≤ key r := by
  cases l with
  | nil => cases h
  | cons x rest =>
    unfold rustMaxByKey at h
    rw [List.foldl_cons, show maxStep key none x = some x from rfl] at h
    obtain ⟨r', hr', hmem, hle, hall⟩ := maxStep_foldl_from_some key rest x
    rw [hr'] at h
    obtain rfl : r' = r := Option.some.inj h
    constructor
    · rcases hmem with rfl | hmem
      · exact List.mem_cons_self _ _
      · exact List.mem_cons_of_mem _ hmem
    · intro y hy
      rcases List.mem_cons.mp hy with rfl | hy'
      · exact hle
      · exact hall y hy'

/-- C9 counterexample: three `Running` records of project `"a"`, all started
at the same instant, held in iteration order with ids `3, 1, 2`.
`max_by_key` keeps the *last* maximal element of the iteration, so
`find_by_project` returns the record with id 2 — not the record chosen by a
process-id tie-break under either reading (greatest id would give 3, least
id would give 1). -/
theorem find_by_project_tie_break_counterexample :
    (ProcessManager.find_by_project
        [(3, ⟨3, "a", 103, "cmd", 5, none, .Running⟩),
         (1, ⟨1, "a", 101, "cmd", 5, none, .Running⟩),
         (2, ⟨2, "a", 102, "cmd", 5, none, .Running⟩)] "a").map (·.id) = some 2
    ∧ (specMaxStartedThenGreatestId
        (([(3, ⟨3, "a", 103, "cmd", 5, none, .Running⟩),
           (1, ⟨1, "a", 101, "cmd", 5, none, .Running⟩),
           (2, ⟨2, "a", 102, "cmd", 5, none, .Running⟩)].map
             (Prod.snd (α := Nat) (β := ProcessInfo))).filter
          (fun m => m.project_name = "a" && m.status = .Running))).map (·.id) = some 3
    ∧ (specMaxStartedThenLeastId
        (([(3, ⟨3, "a", 103, "cmd", 5, none, .Running⟩),
           (1, ⟨1, "a", 101, "cmd", 5, none, .Running⟩),
           (2, ⟨2, "a", 102, "cmd", 5, none, .Running⟩)].map
             (Prod.snd (α := Nat) (β := ProcessInfo))).filter
          (fun m => m.project_name = "a" && m.status = .Running))).map (·.id) = some 1 := by
  refine ⟨?_, ?_, ?_⟩ <;> decide

/-- C9 (amended): `find_by_project` returns `none` exactly when no record of
the project is `Running`; otherwise it returns a `Running` record of the
project whose `started_at` is maximal among them — ties among equal
timestamps are broken by the map's iteration order (the last maximal entry
wins), not by `process_id`. -/
theorem find_by_project_returns_latest_running
    (processes : List (Nat × ProcessInfo)) (project_name : String) :
    (ProcessManager.find_by_project processes project_name = none ↔
      ∀ m ∈ processes.map (·.2),
        ¬(m.project_name = project_name ∧ m.status = .Running))
    ∧ ∀ info, ProcessManager.find_by_project processes project_name = some info →
        info.project_name = project_name ∧ info.status = .Running ∧
        ∀ m ∈ processes.map (·.2),
          m.project_name = project_name → m.status = .Running →
          m.started_at ≤ info.started_at := by
  constructor
  · unfold ProcessManager.find_by_project
    rw [rustMaxByKey_eq_none_iff, List.filter_eq_nil_iff]
    constructor
    · intro hall m hm hcond
      exact hall m hm (by rw [Bool.and_eq_true, decide_eq_true_eq, decide_eq_true_eq]
                          exact hcond)
    · intro hall m hm hcond
      rw [Bool.and_eq_true, decide_eq_true_eq, decide_eq_true_eq] at hcond
      exact hall m hm hcond
  · intro info h
    unfold ProcessManager.find_by_project at h
    obtain ⟨hmem, hmax⟩ := rustMaxByKey_mem_and_max _ _ _ h
    obtain ⟨hmem', hcond⟩ := List.mem_filter.mp hmem
    rw [Bool.and_eq_true, decide_eq_true_eq, decide_eq_true_eq] at hcond
    refine ⟨hcond.1, hcond.2, ?_⟩
    intro m hm h1 h2
    exact hmax m (List.mem_filter.mpr ⟨hm,
      by rw [Bool.and_eq_true, decide_eq_true_eq, decide_eq_true_eq]; exact ⟨h1, h2⟩⟩)

/-- Witness for the amended C9 at a concrete map holding one `Running` and
one `Failed` record of project `"a"`. -/
theorem find_by_project_returns_latest_running_witness :
    ProcessManager.find_by_project
        [(0, ⟨0, "a", 100, "cmd", 4, none, .Failed⟩),
         (1, ⟨1, "a", 101, "cmd", 7, some 3000, .Running⟩)] "a"
      = some ⟨1, "a", 101, "cmd", 7, some 3000, .Running⟩
    ∧ ((⟨1, "a", 101, "cmd", 7, some 3000, .Running⟩ : ProcessInfo).project_name = "a"
      ∧ (⟨1, "a", 101, "cmd", 7, some 3000, .Running⟩ : ProcessInfo).status = .Running
      ∧ ∀ m ∈ [(0, ⟨0, "a", 100, "cmd", 4, none, .Failed⟩),
               (1, ⟨1, "a", 101, "cmd", 7, some 3000, .Running⟩)].map
            (Prod.snd (α := Nat) (β := ProcessInfo)),
          m.project_name = "a" → m.status = .Running →
          m.started_at ≤ (⟨1, "a", 101, "cmd", 7, some 3000, .Running⟩ : ProcessInfo).started_at) :=
  ⟨by decide,
   (find_by_project_returns_latest_running
      [(0, ⟨0, "a", 100, "cmd", 4, none, .Failed⟩),
       (1, ⟨1, "a", 101, "cmd", 7, some 3000, .Running⟩)] "a").2
     ⟨1, "a", 101, "cmd", 7, some 3000, .Running⟩ (by decide)⟩

/-! ### Step equations for the daemon transition system (claims C1, C8) -/

theorem step_spawnOp (st : DaemonState) (p c : String) (a : List String)
    (id pid now : Nat) :
    DaemonState.step st (.spawnOp p c a id pid now) =
      { st with processes := (alInsert id
          (⟨id, p, pid, c ++ " " ++ String.intercalate " " a, now, none, .Running⟩ :
            ProcessInfo) st.processes) } := rfl

theorem stop_snd_of_lookup_none {processes : List (Nat × ProcessInfo)} {id : Nat}
    (killOk : Bool) (h : alLookup id processes = none) :
    (ProcessManager.stop processes id killOk).2 = processes := by
  unfold ProcessManager.stop
  rw [h]

theorem stop_snd_of_killOk_false (processes : List (Nat × ProcessInfo)) (id : Nat) :
    (ProcessManager.stop processes id false).2 = processes := by
  unfold ProcessManager.stop
  cases h : alLookup id processes <;> simp

theorem stop_snd_of_some_true {processes : List (Nat × ProcessInfo)} {id : Nat}
    {m : ProcessInfo} (h : alLookup id processes = some m) :
    (ProcessManager.stop processes id true).2 =
      alUpdate id (fun m => { m with status := .Stopped }) processes := by
  unfold ProcessManager.stop
  rw [h]
  rfl

theorem handlePortDetected_processes (st : DaemonState) (id port : Nat)
    (diskOk : Bool) :
    (handlePortDetected st id port diskOk).processes =
      ProcessManager.update_port st.processes id port := by
  unfold handlePortDetected
  cases h : alLookup id (ProcessManager.update_port st.processes id port) <;> simp [h]

theorem handleExited_processes (st : DaemonState) (id : Nat) (code : Option Int) :
    (handleExited st id code).processes =
      ProcessManager.update_status st.processes id
        (if code = some 0 then .Stopped else .Failed) := by
  unfold handleExited
  cases h : alLookup id st.processes <;> simp [h]

theorem handleExited_routing_of_some {st : DaemonState} {id : Nat}
    {info : ProcessInfo} (code : Option Int)
    (h : alLookup id st.processes = some info) :
    (handleExited st id code).routing = alRemove info.project_name st.routing := by
  unfold handleExited
  simp [h]

theorem handleExited_routing_of_none {st : DaemonState} {id : Nat}
    (code : Option Int) (h : alLookup id st.processes = none) :
    (handleExited st id code).routing = st.routing := by
  unfold handleExited
  simp [h]

theorem step_routing_stopOp (st : DaemonState) (id : Nat) (killOk : Bool) :
    (DaemonState.step st (.stopOp id killOk)).routing = st.routing := rfl

theorem step_lookup_isSome {st : DaemonState} {id : Nat} (op : DaemonOp)
    (h : (alLookup id st.processes).isSome = true) :
    (alLookup id (DaemonState.step st op).processes).isSome = true := by
  cases op with
  | spawnOp p c a id' pid now =>
    rw [step_spawnOp]
    dsimp only
    rw [alLookup_insert]
    by_cases hi : id = id'
    · rw [if_pos hi]
      rfl
    · rw [if_neg hi]
      exact h
  | stopOp id' killOk =>
    show (alLookup id (ProcessManager.stop st.processes id' killOk).2).isSome = true
    cases hl : alLookup id' st.processes with
    | none => rw [stop_snd_of_lookup_none killOk hl]; exact h
    | some m =>
      cases killOk with
      | false => rw [stop_snd_of_killOk_false]; exact h
      | true =>
        rw [stop_snd_of_some_true hl, alLookup_update]
        by_cases hi : id = id'
        · rw [if_pos hi]
          cases hx : alLookup id st.processes with
          | none => rw [hx] at h; cases h
          | some v => rw [hi] at hx; rw [hx]; rfl
        · rw [if_neg hi]; exact h
  | portDetectedOp id' port diskOk =>
    show (alLookup id (handlePortDetected st id' port diskOk).processes).isSome = true
    rw [handlePortDetected_processes]
    unfold ProcessManager.update_port
    rw [alLookup_update]
    by_cases hi : id = id'
    · rw [if_pos hi]
      cases hx : alLookup id st.processes with
      | none => rw [hx] at h; cases h
      | some v => rw [hi] at hx; rw [hx]; rfl
    · rw [if_neg hi]; exact h
  | exitedOp id' code =>
    show (alLookup id (handleExited st id' code).processes).isSome = true
    rw [handleExited_processes]
    unfold ProcessManager.update_status
    rw [alLookup_update]
    by_cases hi : id = id'
    · rw [if_pos hi]
      cases hx : alLookup id st.processes with
      | none => rw [hx] at h; cases h
      | some v => rw [hi] at hx; rw [hx]; rfl
    · rw [if_neg hi]; exact h

theorem foldl_lookup_isSome {id : Nat} (ops : List DaemonOp) (st : DaemonState)
    (h : (alLookup id st.processes).isSome = true) :
    (alLookup id (ops.foldl DaemonState.step st).processes).isSome = true := by
  induction ops generalizing st with
  | nil => exact h
  | cons op rest ih =>
    rw [List.foldl_cons]
    exact ih _ (step_lookup_isSome op h)

theorem spawned_record_exists {id : Nat} (ops : List DaemonOp) (st : DaemonState)
    (h : id ∈ spawnIds ops) :
    (alLookup id (ops.foldl DaemonState.step st).processes).isSome = true := by
  induction ops generalizing st with
  | nil => cases h
  | cons op rest ih =>
    rw [List.foldl_cons]
    by_cases hop : spawnId op = some id
    · cases op with
      | spawnOp p c a id' pid now =>
        obtain rfl : id' = id := Option.some.inj hop
        apply foldl_lookup_isSome
        rw [step_spawnOp]
        dsimp only
        rw [alLookup_insert, if_pos rfl]
        rfl
      | stopOp _ _ => cases hop
      | portDetectedOp _ _ _ => cases hop
      | exitedOp _ _ => cases hop
    · apply ih
      unfold spawnIds at h
      rw [List.filterMap_cons] at h
      cases hs : spawnId op with
      | none => rw [hs] at h; exact h
      | some j =>
        rw [hs] at h
        rcases List.mem_cons.mp h with rfl | h'
        · exact absurd hs hop
        · exact h'

/-! ### Claim C8: stability of terminal statuses -/

theorem step_status_unchanged {st : DaemonState} {id : Nat} (op : DaemonOp)
    (hnospawn : ¬ spawnId op = some id)
    (hnostop : ¬ op = .stopOp id true)
    (hnoexit : isExitedFor id op = false) :
    (alLookup id (DaemonState.step st op).processes).map (·.status)
      = (alLookup id st.processes).map (·.status) := by
  cases op with
  | spawnOp p c a id' pid now =>
    have hne : ¬ id = id' := fun hh => hnospawn (by rw [hh]; exact rfl)
    rw [step_spawnOp]
    dsimp only
    rw [alLookup_insert, if_neg hne]
  | stopOp id' killOk =>
    show (alLookup id (ProcessManager.stop st.processes id' killOk).2).map _ = _
    cases killOk with
    | false => rw [stop_snd_of_killOk_false]
    | true =>
      have hne : ¬ id = id' := fun hh => hnostop (by rw [hh])
      cases hl : alLookup id' st.processes with
      | none => rw [stop_snd_of_lookup_none true hl]
      | some m => rw [stop_snd_of_some_true hl, alLookup_update, if_neg hne]
  | portDetectedOp id' port diskOk =>
    show (alLookup id (handlePortDetected st id' port diskOk).processes).map _ = _
    rw [handlePortDetected_processes]
    unfold ProcessManager.update_port
    rw [alLookup_update]
    by_cases hi : id = id'
    · rw [if_pos hi, hi]
      cases hx : alLookup id' st.processes <;> rfl
    · rw [if_neg hi]
  | exitedOp id' code =>
    simp only [isExitedFor, decide_eq_false_iff_not] at hnoexit
    have hne : ¬ id = id' := fun hh => hnoexit hh.symm
    show (alLookup id (handleExited st id' code).processes).map _ = _
    rw [handleExited_processes]
    unfold ProcessManager.update_status
    rw [alLookup_update, if_neg hne]

theorem foldl_status_stable {id : Nat} (post : List DaemonOp) (st : DaemonState)
    (hnospawn : ∀ op ∈ post, ¬ spawnId op = some id)
    (hnostop : ∀ op ∈ post, ¬ op = .stopOp id true)
    (hnoexit : ∀ op ∈ post, isExitedFor id op = false) :
    (alLookup id (post.foldl DaemonState.step st).processes).map (·.status)
      = (alLookup id st.processes).map (·.status) := by
  induction post generalizing st with
  | nil => rfl
  | cons op rest ih =>
    rw [List.foldl_cons,
      ih _ (fun o ho => hnospawn o (List.mem_cons_of_mem _ ho))
        (fun o ho => hnostop o (List.mem_cons_of_mem _ ho))
        (fun o ho => hnoexit o (List.mem_cons_of_mem _ ho)),
      step_status_unchanged op (hnospawn op (List.mem_cons_self _ _))
        (hnostop op (List.mem_cons_self _ _)) (hnoexit op (List.mem_cons_self _ _))]

/-- C8 counterexample: after `spawn; stop` the record's status is the
terminal value `Stopped`, yet processing the process's `Exited{Some 1}`
event afterwards rewrites it to `Failed` — a terminal status is left. -/
theorem stop_then_exit_changes_terminal_status :
    (alLookup 0 (run [.spawnOp "a" "cmd" [] 0 100 0,
        .stopOp 0 true]).processes).map (·.status) = some .Stopped
    ∧ (alLookup 0 (run [.spawnOp "a" "cmd" [] 0 100 0, .stopOp 0 true,
        .exitedOp 0 (some 1)]).processes).map (·.status) = some .Failed := by
  constructor
  · decide
  · decide

/-- C8 (amended): once a record's status has been set by handling its
`Exited` event, no later operation changes it — provided the trace after
that event carries no second `Exited` for the process (the wait task fires
once), no spawn reusing its process id (UUIDs are fresh), and no successful
`stop` of it (the SIGTERM of a reaped process fails).  A `Stopped` status
written by `stop()` before the `Exited` event is processed is *not* stable:
the `Exited` handler overwrites it, as the counterexample shows. -/
theorem exited_terminal_status_stable
    (pre post : List DaemonOp) (id : Nat) (code : Option Int)
    (hspawned : id ∈ spawnIds pre)
    (hnoexit : ∀ op ∈ post, isExitedFor id op = false)
    (hnospawn : ∀ op ∈ post, ¬ spawnId op = some id)
    (hnostop : ∀ op ∈ post, ¬ op = .stopOp id true) :
    (alLookup id (run (pre ++ DaemonOp.exitedOp id code :: post)).processes).map
        (·.status)
      = some (if code = some 0 then ProcessStatus.Stopped else .Failed) := by
  have hrun : run (pre ++ DaemonOp.exitedOp id code :: post) =
      post.foldl DaemonState.step
        (DaemonState.step (run pre) (.exitedOp id code)) := by
    unfold run
    rw [List.foldl_append, List.foldl_cons]
  rw [hrun, foldl_status_stable post _ hnospawn hnostop hnoexit]
  obtain ⟨orig, horig⟩ :=
    Option.isSome_iff_exists.mp (spawned_record_exists pre initState hspawned)
  have horig' : alLookup id (run pre).processes = some orig := horig
  show (alLookup id (handleExited (run pre) id code).processes).map (·.status) = _
  rw [handleExited_processes]
  unfold ProcessManager.update_status
  rw [alLookup_update, if_pos rfl, horig']
  rfl

/-- Witness for the amended C8: after `spawn 0; Exited{0, Some 0}`, a later
port detection, an unrelated spawn and a failed stop leave the status
`Stopped`. -/
theorem exited_terminal_status_stable_witness :
    (alLookup 0 (run ([DaemonOp.spawnOp "a" "cmd" [] 0 100 0] ++
        DaemonOp.exitedOp 0 (some 0) ::
        [DaemonOp.portDetectedOp 0 3000 true,
         DaemonOp.spawnOp "b" "cmd" [] 1 101 7,
         DaemonOp.stopOp 0 false])).processes).map (·.status)
      = some ProcessStatus.Stopped :=
  exited_terminal_status_stable
    [DaemonOp.spawnOp "a" "cmd" [] 0 100 0]
    [DaemonOp.portDetectedOp 0 3000 true,
     DaemonOp.spawnOp "b" "cmd" [] 1 101 7,
     DaemonOp.stopOp 0 false] 0 (some 0)
    (by decide) (by decide) (by decide) (by decide)

/-! ### Claim C1: the routing-table witness invariant -/

theorem alLookup_update_none {K V : Type} [DecidableEq K] {id k : K} (f : V → V)
    {l : List (K × V)} (h : alLookup id l = none) :
    alLookup id (alUpdate k f l) = none := by
  rw [alLookup_update]
  by_cases hi : id = k
  · rw [if_pos hi, ← hi, h]
    rfl
  · rw [if_neg hi]
    exact h

theorem run_aux_routing_witnessed (ops : List DaemonOp) :
    ∀ st : DaemonState,
      alNodupKeys st.processes →
      RoutingWitnessed st →
      (∀ id ∈ spawnIds ops, alLookup id st.processes = none) →
      (spawnIds ops).Nodup →
      noPortDetectAfterExit ops = true →
      (∀ id info, alLookup id st.processes = some info → info.status = .Failed →
        ∀ op ∈ ops, isPortDetectedFor id op = false) →
      alNodupKeys (ops.foldl DaemonState.step st).processes ∧
      RoutingWitnessed (ops.foldl DaemonState.step st) := by
  induction ops with
  | nil => exact fun st h0 h1 _ _ _ _ => ⟨h0, h1⟩
  | cons op rest ih =>
    intro st h0 h1 hfresh hnodup hpd hfail
    rw [List.foldl_cons]
    cases op with
    | spawnOp p c a id pid now =>
      have hids : spawnIds (DaemonOp.spawnOp p c a id pid now :: rest)
          = id :: spawnIds rest := rfl
      rw [hids] at hfresh hnodup
      obtain ⟨hnotin, hnodup'⟩ := List.nodup_cons.mp hnodup
      have hfr : alLookup id st.processes = none :=
        hfresh id (List.mem_cons_self _ _)
      have hins : DaemonState.step st (.spawnOp p c a id pid now) =
          { st with processes := (st.processes ++
            [(id, (⟨id, p, pid, c ++ " " ++ String.intercalate " " a, now, none,
              .Running⟩ : ProcessInfo))]) } := by
        rw [step_spawnOp,
          alInsert_of_not_contains _ (alContainsKey_eq_false_of_lookup_none hfr)]
      rw [hins]
      apply ih
      · exact alNodupKeys_append_fresh _ h0 hfr
      · intro n pt hr
        obtain ⟨e, hmem, hname, hport, hstatus⟩ := h1 n pt hr
        exact ⟨e, List.mem_append_left _ hmem, hname, hport, hstatus⟩
      · intro id' hid'
        show alLookup id' (st.processes ++ [(id, _)]) = none
        rw [alLookup_append]
        have hne : ¬ id = id' := fun hh => hnotin (hh ▸ hid')
        rw [hfresh id' (List.mem_cons_of_mem _ hid')]
        show alLookup id' [(id, _)] = none
        rw [alLookup_cons, if_neg hne]
        rfl
      · exact hnodup'
      · have := hpd
        simp only [noPortDetectAfterExit, Bool.and_eq_true] at this
        exact this.2
      · intro id' info' hlk hfl op' hop'
        dsimp only at hlk
        rw [alLookup_append] at hlk
        cases hx : alLookup id' st.processes with
        | some m =>
          rw [hx] at hlk
          obtain rfl : m = info' := Option.some.inj hlk
          exact hfail id' m hx hfl op' (List.mem_cons_of_mem _ hop')
        | none =>
          rw [hx] at hlk
          rw [alLookup_cons] at hlk
          by_cases hi : id = id'
          · rw [if_pos hi] at hlk
            obtain rfl := Option.some.inj hlk
            cases hfl
          · rw [if_neg hi] at hlk
            cases hlk
    | stopOp id killOk =>
      have hids : spawnIds (DaemonOp.stopOp id killOk :: rest) = spawnIds rest := rfl
      rw [hids] at hfresh hnodup
      have hpdrest : noPortDetectAfterExit rest = true := by
        have := hpd
        simp only [noPortDetectAfterExit, Bool.and_eq_true] at this
        exact this.2
      have hproc : (DaemonState.step st (.stopOp id killOk)).processes
          = (ProcessManager.stop st.processes id killOk).2 := rfl
      cases hl : alLookup id st.processes with
      | none =>
        have heq : DaemonState.step st (.stopOp id killOk) = st := by
          show { st with
            processes := (ProcessManager.stop st.processes id killOk).2 } = st
          rw [stop_snd_of_lookup_none killOk hl]
        rw [heq]
        exact ih st h0 h1 hfresh hnodup hpdrest
          (fun i inf hx hfl op' hop' => hfail i inf hx hfl op' (List.mem_cons_of_mem _ hop'))
      | some m =>
        cases killOk with
        | false =>
          have heq : DaemonState.step st (.stopOp id false) = st := by
            show { st with
              processes := (ProcessManager.stop st.processes id false).2 } = st
            rw [stop_snd_of_killOk_false]
          rw [heq]
          exact ih st h0 h1 hfresh hnodup hpdrest
            (fun i inf hx hfl op' hop' => hfail i inf hx hfl op' (List.mem_cons_of_mem _ hop'))
        | true =>
          have hproc2 : (DaemonState.step st (.stopOp id true)).processes
              = alUpdate id (fun m => { m with status := .Stopped })
                st.processes := by
            show (ProcessManager.stop st.processes id true).2 = _
            rw [stop_snd_of_some_true hl]
          apply ih
          · rw [hproc2]
            exact alNodupKeys_update _ _ h0
          · intro n pt hr
            rw [hproc2]
            have hr' : alLookup n st.routing = some pt := hr
            obtain ⟨⟨e1, e2⟩, hmem, hname, hport, hstatus⟩ := h1 n pt hr'
            by_cases he : e1 = id
            · subst he
              exact ⟨(e1, { e2 with status := .Stopped }),
                mem_alUpdate_self _ hmem, hname, hport, Or.inr rfl⟩
            · exact ⟨(e1, e2), mem_alUpdate_of_ne _ _ hmem he, hname, hport, hstatus⟩
          · intro id' hid'
            rw [hproc2]
            exact alLookup_update_none _ (hfresh id' hid')
          · exact hnodup
          · exact hpdrest
          · intro id' info' hlk hfl op' hop'
            rw [hproc2, alLookup_update] at hlk
            by_cases hi : id' = id
            · rw [if_pos hi, ← hi] at hlk
              cases hx : alLookup id' st.processes with
              | none => rw [hx] at hlk; cases hlk
              | some v =>
                rw [hx] at hlk
                obtain rfl := Option.some.inj hlk
                cases hfl
            · rw [if_neg hi] at hlk
              exact hfail id' info' hlk hfl op' (List.mem_cons_of_mem _ hop')
    | portDetectedOp id port diskOk =>
      have hids : spawnIds (DaemonOp.portDetectedOp id port diskOk :: rest)
          = spawnIds rest := rfl
      rw [hids] at hfresh hnodup
      have hpdrest : noPortDetectAfterExit rest = true := by
        have := hpd
        simp only [noPortDetectAfterExit, Bool.and_eq_true] at this
        exact this.2
      have hnofailid : ∀ info, alLookup id st.processes = some info →
          ¬ info.status = .Failed := by
        intro info hlk hfl
        have := hfail id info hlk hfl (.portDetectedOp id port diskOk)
          (List.mem_cons_self _ _)
        simp [isPortDetectedFor] at this
      have hproc : (DaemonState.step st (.portDetectedOp id port diskOk)).processes
          = alUpdate id (fun m => { m with port := some port }) st.processes := by
        show (handlePortDetected st id port diskOk).processes = _
        rw [handlePortDetected_processes]
        rfl
      apply ih
      · rw [hproc]
        exact alNodupKeys_update _ _ h0
      · intro n pt hr
        rw [hproc]
        cases hlu : alLookup id (ProcessManager.update_port st.processes id port) with
        | none =>
          have hroute : (DaemonState.step st (.portDetectedOp id port diskOk)).routing
              = st.routing := by
            show (handlePortDetected st id port diskOk).routing = _
            unfold handlePortDetected
            simp [hlu]
          rw [hroute] at hr
          obtain ⟨e, hmem, hname, hport, hstatus⟩ := h1 n pt hr
          have hnone : alLookup id st.processes = none := by
            have := hlu
            unfold ProcessManager.update_port at this
            rw [alLookup_update, if_pos rfl] at this
            cases hx : alLookup id st.processes with
            | none => rfl
            | some v => rw [hx] at this; cases this
          have hne : ¬ e.1 = id :=
            (alLookup_eq_none_iff id st.processes).mp hnone e hmem
          exact ⟨e, mem_alUpdate_of_ne _ _ hmem hne, hname, hport, hstatus⟩
        | some info =>
          have hroute : (DaemonState.step st (.portDetectedOp id port diskOk)).routing
              = alInsert info.project_name port st.routing := by
            show (handlePortDetected st id port diskOk).routing = _
            unfold handlePortDetected
            simp [hlu]
          rw [hroute, alLookup_insert] at hr
          obtain ⟨orig, ho, hinfo⟩ :
              ∃ orig, alLookup id st.processes = some orig ∧
                info = { orig with port := some port } := by
            have := hlu
            unfold ProcessManager.update_port at this
            rw [alLookup_update, if_pos rfl] at this
            cases hx : alLookup id st.processes with
            | none => rw [hx] at this; cases this
            | some v =>
              rw [hx] at this
              exact ⟨v, rfl, (Option.some.inj this).symm⟩
          by_cases hn : n = info.project_name
          · rw [if_pos hn] at hr
            obtain rfl : port = pt := Option.some.inj hr
            refine ⟨(id, info), mem_of_alLookup_eq_some hlu, hn.symm, ?_, ?_⟩
            · rw [hinfo]
            · rw [hinfo]
              have := hnofailid orig ho
              cases horig : orig.status with
              | Running => exact Or.inl rfl
              | Stopped => exact Or.inr rfl
              | Failed => exact absurd horig this
          · rw [if_neg hn] at hr
            obtain ⟨⟨e1, e2⟩, hmem, hname, hport, hstatus⟩ := h1 n pt hr
            by_cases he : e1 = id
            · exfalso
              have hlv : alLookup e1 st.processes = some e2 :=
                alLookup_eq_of_mem_nodup h0 hmem
              rw [he, ho] at hlv
              obtain rfl : orig = e2 := Option.some.inj hlv
              apply hn
              rw [← hname, hinfo]
            · exact ⟨(e1, e2), mem_alUpdate_of_ne _ _ hmem he, hname, hport, hstatus⟩
      · intro id' hid'
        rw [hproc]
        exact alLookup_update_none _ (hfresh id' hid')
      · exact hnodup
      · exact hpdrest
      · intro id' info' hlk hfl op' hop'
        rw [hproc, alLookup_update] at hlk
        by_cases hi : id' = id
        · rw [if_pos hi, ← hi] at hlk
          cases hx : alLookup id' st.processes with
          | none => rw [hx] at hlk; cases hlk
          | some orig =>
            rw [hx] at hlk
            obtain rfl := Option.some.inj hlk
            exact hfail id' orig hx hfl op' (List.mem_cons_of_mem _ hop')
        · rw [if_neg hi] at hlk
          exact hfail id' info' hlk hfl op' (List.mem_cons_of_mem _ hop')
    | exitedOp id code =>
      have hids : spawnIds (DaemonOp.exitedOp id code :: rest) = spawnIds rest := rfl
      rw [hids] at hfresh hnodup
      have hpds := hpd
      simp only [noPortDetectAfterExit, Bool.and_eq_true] at hpds
      obtain ⟨hpd1, hpdrest⟩ := hpds
      have hproc : (DaemonState.step st (.exitedOp id code)).processes
          = alUpdate id (fun m => { m with
              status := if code = some 0 then .Stopped else .Failed }) st.processes := by
        show (handleExited st id code).processes = _
        rw [handleExited_processes]
        rfl
      apply ih
      · rw [hproc]
        exact alNodupKeys_update _ _ h0
      · intro n pt hr
        rw [hproc]
        cases ho : alLookup id st.processes with
        | none =>
          have hroute : (DaemonState.step st (.exitedOp id code)).routing
              = st.routing := by
            show (handleExited st id code).routing = _
            exact handleExited_routing_of_none code ho
          rw [hroute] at hr
          obtain ⟨e, hmem, hname, hport, hstatus⟩ := h1 n pt hr
          have hne : ¬ e.1 = id :=
            (alLookup_eq_none_iff id st.processes).mp ho e hmem
          exact ⟨e, mem_alUpdate_of_ne _ _ hmem hne, hname, hport, hstatus⟩
        | some orig =>
          have hroute : (DaemonState.step st (.exitedOp id code)).routing
              = alRemove orig.project_name st.routing := by
            show (handleExited st id code).routing = _
            exact handleExited_routing_of_some code ho
          rw [hroute, alLookup_remove] at hr
          by_cases hn : n = orig.project_name
          · rw [if_pos hn] at hr
            cases hr
          · rw [if_neg hn] at hr
            obtain ⟨⟨e1, e2⟩, hmem, hname, hport, hstatus⟩ := h1 n pt hr
            by_cases he : e1 = id
            · exfalso
              have hlv : alLookup e1 st.processes = some e2 :=
                alLookup_eq_of_mem_nodup h0 hmem
              rw [he, ho] at hlv
              obtain rfl : orig = e2 := Option.some.inj hlv
              exact hn hname.symm
            · exact ⟨(e1, e2), mem_alUpdate_of_ne _ _ hmem he, hname, hport, hstatus⟩
      · intro id' hid'
        rw [hproc]
        exact alLookup_update_none _ (hfresh id' hid')
      · exact hnodup
      · exact hpdrest
      · intro id' info' hlk hfl op' hop'
        rw [hproc, alLookup_update] at hlk
        by_cases hi : id' = id
        · subst hi
          have : isPortDetectedFor id' op' = false := by
            have hall := List.all_eq_true.mp hpd1 op' hop'
            cases hb : isPortDetectedFor id' op' with
            | false => rfl
            | true => rw [hb] at hall; cases hall
          exact this
        · rw [if_neg hi] at hlk
          exact hfail id' info' hlk hfl op' (List.mem_cons_of_mem _ hop')

/-- C1 counterexample: after `spawn 0 for "a"; PortDetected{0, 3000};
stop(0)`, the routing table still maps `"a"` to `3000` — `stop` marks the
record `Stopped` without touching the routing table, which is only cleaned
by the later `Exited` event — so no record of project `"a"` with status
`Running` and port `Some 3000` exists. -/
theorem routing_running_invariant_fails :
    ¬ RoutingRunningWitnessed
      (run [.spawnOp "a" "cmd" [] 0 100 0, .portDetectedOp 0 3000 true,
            .stopOp 0 true]) := by
  intro h
  obtain ⟨e, hmem, hname, hstatus, hport⟩ := h "a" 3000 (by decide)
  have hno : ¬ ∃ e ∈ (run [.spawnOp "a" "cmd" [] 0 100 0,
      .portDetectedOp 0 3000 true, .stopOp 0 true]).processes,
      e.2.project_name = "a" ∧ e.2.status = .Running ∧ e.2.port = some 3000 := by
    decide
  exact hno ⟨e, hmem, hname, hstatus, hport⟩

/-- C1 (amended): at every state reached by an interleaving of successful
spawns, stops, `PortDetected` handling and `Exited` handling in which spawn
ids are fresh (UUIDs never repeat) and no `PortDetected` for a process is
delivered after its `Exited` (the supervisor's per-process event order),
every routing-table pair `(project, port)` is witnessed by a record with
that `project_name` and `port = Some port` whose status is `Running` or
`Stopped` — but not necessarily `Running`: a record stopped by `stop()`
keeps its route until its `Exited` event is processed. -/
theorem routing_entries_witnessed (ops : List DaemonOp)
    (hnodup : (spawnIds ops).Nodup)
    (hpd : noPortDetectAfterExit ops = true) :
    RoutingWitnessed (run ops) :=
  (run_aux_routing_witnessed ops initState
    (by simp [initState, alNodupKeys])
    (fun n pt hr => by cases hr)
    (fun id _ => rfl)
    hnodup
    hpd
    (fun id info hx => by cases hx)).2

/-- Witness for the amended C1 at the trace `spawn; PortDetected; stop`
(the counterexample trace): its hypotheses hold and the weakened invariant
is established for the resulting state. -/
theorem routing_entries_witnessed_witness :
    (spawnIds [DaemonOp.spawnOp "a" "cmd" [] 0 100 0,
      DaemonOp.portDetectedOp 0 3000 true, DaemonOp.stopOp 0 true]).Nodup
    ∧ noPortDetectAfterExit [DaemonOp.spawnOp "a" "cmd" [] 0 100 0,
        DaemonOp.portDetectedOp 0 3000 true, DaemonOp.stopOp 0 true] = true
    ∧ RoutingWitnessed (run [DaemonOp.spawnOp "a" "cmd" [] 0 100 0,
        DaemonOp.portDetectedOp 0 3000 true, DaemonOp.stopOp 0 true]) :=
  ⟨by decide, by decide,
   routing_entries_witnessed
     [DaemonOp.spawnOp "a" "cmd" [] 0 100 0,
      DaemonOp.portDetectedOp 0 3000 true, DaemonOp.stopOp 0 true]
     (by decide) (by decide)⟩

end Proj
